import Mathlib

/-!
Verification of the CppLibrary parsing headers (`Parsing/Yaml/Yaml.h`,
`Parsing/Xml/Xml.h`, `Parsing/Xml/XmlParser.h`) against their
natural-language specification.

The development shallowly embeds the YAML DOM (`YamlScalar`, `YamlSequence`,
`YamlMapping`) together with its JSON writer, the XML DOM search helpers, the
`StreamParser` reader, and the streaming XML parser.  C++ `std::string` becomes
Lean `String`, `int` becomes `Int` (or `Nat` where the value is provably
non-negative), nullable `unique_ptr`/`shared_ptr` fields become `Option`, and
exceptions become `Except String` or explicit error results.  Where an
implementation file of the repository is not available (only its declarations
and documentation are), the corresponding definition is modelled from the
specification and marked as such in its doc comment.
-/

namespace CppLib

namespace Yaml

/-- Embedding of `wb::yaml::JsonWriterOptions` (Yaml.h).  `Indentation` is a
C++ `int`, so it is embedded as `Int`; `UnquoteNumbers` defaults to `false`. -/
structure JsonWriterOptions where
  Indentation : Int
  UnquoteNumbers : Bool
deriving Repr, DecidableEq

/-- Embedding of `YamlNode::AddIndent` (Yaml.h): appends one tab per
indentation level; a non-positive level appends nothing (the C++ loop
`for (ii = 0; ii < Indentation; ii++)` runs zero times). -/
def addIndent (indentation : Int) : String :=
  String.mk (List.replicate indentation.toNat '\t')

/-- The YAML DOM of Yaml.h: a node is a scalar, a sequence, or a mapping.
Every node carries `Tag` and `Source` (the `YamlNode` base members).  Entries
of a sequence and keys/values of a mapping are held through
`unique_ptr<YamlNode>` in the C++ and may be null, hence `Option`.  The C++
`unordered_map` of `YamlMapping` is embedded as the list of its entries in
iteration order. -/
inductive YamlNode where
  | scalar (tag source content : String)
  | sequence (tag source : String) (entries : List (Option YamlNode))
  | mapping (tag source : String) (entries : List (Option YamlNode × Option YamlNode))

/-- The `Tag` member of a node (base class `YamlNode`). -/
def yamlTag : YamlNode → String
  | .scalar t _ _ => t
  | .sequence t _ _ => t
  | .mapping t _ _ => t

/-- The `Source` member of a node (base class `YamlNode`). -/
def yamlSource : YamlNode → String
  | .scalar _ s _ => s
  | .sequence _ s _ => s
  | .mapping _ s _ => s

/-- Modelled from the spec: `wb::json::JsonString::Escape` (its definition is
not among the provided sources).  Standard JSON string escaping of a single
character: quote, backslash and the common control characters are escaped,
every other character is passed through. -/
def escapeChar (c : Char) : List Char :=
  if c = '"' then ['\\', '"']
  else if c = '\\' then ['\\', '\\']
  else if c = '\n' then ['\\', 'n']
  else if c = '\r' then ['\\', 'r']
  else if c = '\t' then ['\\', 't']
  else [c]

/-- Modelled from the spec: `wb::json::JsonString::Escape` applied to a whole
string (the JSON writer quotes scalars as escaped JSON strings). -/
def jsonEscape (s : String) : String :=
  String.mk (s.data.foldr (fun c acc => escapeChar c ++ acc) [])

/-- Model of the C library `toupper` as used by `YamlScalar::ToJsonValue`,
acting on the character's code point (ASCII uppercase). -/
def ctoupper (n : Nat) : Nat :=
  if 97 ≤ n ∧ n ≤ 122 then n - 32 else n

/-- The per-character test of the loop in `YamlScalar::ToJsonValue` (Yaml.h
lines 93-98): `(c >= '0' && c <= '9') || toupper(c) == 'E' ||
toupper(c) == '.' || c == '+' || c == '-'` (character comparisons in C compare
the code points). -/
def isNumericCharCode (c : Char) : Bool :=
  (48 ≤ c.toNat && c.toNat ≤ 57) || ctoupper c.toNat == 69 || ctoupper c.toNat == 46
    || c.toNat == 43 || c.toNat == 45

/-- Embedding of `YamlScalar::ToJsonValue` (Yaml.h): without `UnquoteNumbers`
the content is emitted as a quoted escaped JSON string; with it, the loop
scans the content and returns the quoted form upon the first character that is
not numeric-like; if the loop finishes (vacuously for empty content) the
content is emitted verbatim. -/
def toJsonValue (content : String) (unquoteNumbers : Bool) : String :=
  if !unquoteNumbers then "\"" ++ jsonEscape content ++ "\""
  else if content.data.all isNumericCharCode then content
  else "\"" ++ jsonEscape content ++ "\""

/-- The character class of the regex `[-+0-9.eE]` named by the specification
for the numeric-unquoting heuristic, written from the spec's words. -/
def specNumericChar (c : Char) : Bool :=
  c = '-' || c = '+' || ('0' ≤ c && c ≤ '9') || c = '.' || c = 'e' || c = 'E'

/-- The scalar-to-JSON behaviour as claimed by the specification sentence:
quoted escaped string unless `UnquoteNumbers` is set and the content matches
`^[-+0-9.eE]+$` (one or more characters of the class). -/
def toJsonValueClaimed (content : String) (unquoteNumbers : Bool) : String :=
  if unquoteNumbers && (content.length != 0 && content.data.all specNumericChar) then content
  else "\"" ++ jsonEscape content ++ "\""

/-- The scalar-to-JSON behaviour with the numeric test amended to
`^[-+0-9.eE]*$` (zero or more characters of the class, so the empty content
also passes). -/
def toJsonValueAmended (content : String) (unquoteNumbers : Bool) : String :=
  if unquoteNumbers && content.data.all specNumericChar then content
  else "\"" ++ jsonEscape content ++ "\""

mutual

/-- Embedding of the virtual `ToJson` of Yaml.h: `YamlScalar::ToJson` defers to
`ToJsonValue`; `YamlSequence::ToJson` writes `[`, the entries at one deeper
indentation separated by `,\n` (a null entry prints `null`), then `]`;
`YamlMapping::ToJson` writes the brace-enclosed entries, each as
`key: value` at one deeper indentation (a null key prints `""`, a null value
prints `null`). -/
def toJson : YamlNode → JsonWriterOptions → String
  | .scalar _ _ content, o => toJsonValue content o.UnquoteNumbers
  | .sequence _ _ entries, o =>
      "[\n" ++ seqEntriesJson entries true { o with Indentation := o.Indentation + 1 }
        ++ "\n" ++ addIndent o.Indentation ++ "]"
  | .mapping _ _ entries, o =>
      "\x7b\n" ++ mapEntriesJson entries true { o with Indentation := o.Indentation + 1 }
        ++ "\n" ++ addIndent o.Indentation ++ "\x7d"

/-- The entry loop of `YamlSequence::ToJson` (Yaml.h lines 151-169): `First`
suppresses the leading `,\n`; each entry is indented and a null entry is
written as `null`. -/
def seqEntriesJson : List (Option YamlNode) → Bool → JsonWriterOptions → String
  | [], _, _ => ""
  | none :: rest, first, o =>
      (if first then "" else ",\n") ++ addIndent o.Indentation ++ "null"
        ++ seqEntriesJson rest false o
  | some n :: rest, first, o =>
      (if first then "" else ",\n") ++ addIndent o.Indentation ++ toJson n o
        ++ seqEntriesJson rest false o

/-- The entry loop of `YamlMapping::ToJson` (Yaml.h lines 216-250): each entry
is indented, a null key is written as `""` (JSON forbids null keys), the key
is separated from the value by `": "`, and a null value is written as
`null`. -/
def mapEntriesJson : List (Option YamlNode × Option YamlNode) → Bool → JsonWriterOptions → String
  | [], _, _ => ""
  | (none, none) :: rest, first, o =>
      (if first then "" else ",\n") ++ addIndent o.Indentation ++ "\"\"" ++ ": " ++ "null"
        ++ mapEntriesJson rest false o
  | (none, some v) :: rest, first, o =>
      (if first then "" else ",\n") ++ addIndent o.Indentation ++ "\"\"" ++ ": " ++ toJson v o
        ++ mapEntriesJson rest false o
  | (some k, none) :: rest, first, o =>
      (if first then "" else ",\n") ++ addIndent o.Indentation ++ toJson k o ++ ": " ++ "null"
        ++ mapEntriesJson rest false o
  | (some k, some v) :: rest, first, o =>
      (if first then "" else ",\n") ++ addIndent o.Indentation ++ toJson k o ++ ": " ++ toJson v o
        ++ mapEntriesJson rest false o

end

/-- One rendered sequence entry at the given indentation: `null` for a null
entry, the entry's JSON otherwise.  Used to state the shape of the sequence
writer's output. -/
def seqItemJson (o : JsonWriterOptions) (e : Option YamlNode) : String :=
  addIndent o.Indentation ++ (match e with | none => "null" | some n => toJson n o)

/-- One rendered mapping entry at the given indentation: the key (`""` for a
null key) and the value (`null` for a null value) separated by `": "`.  Used
to state the shape of the mapping writer's output. -/
def mapItemJson (o : JsonWriterOptions) (kv : Option YamlNode × Option YamlNode) : String :=
  addIndent o.Indentation
    ++ (match kv.1 with | none => "\"\"" | some k => toJson k o)
    ++ ": "
    ++ (match kv.2 with | none => "null" | some v => toJson v o)

/-- Joins rendered items, preceding each with the `,\n` separator (the shape
of the writer loops once `First` has been cleared). -/
def contJoin : List String → String
  | [] => ""
  | x :: xs => ",\n" ++ x ++ contJoin xs

/-- Joins rendered items with the `,\n` separator between consecutive items
(no separator before the first). -/
def joinComma : List String → String
  | [] => ""
  | x :: xs => x ++ contJoin xs

mutual

/-- Embedding of the virtual `DeepCopy` of Yaml.h: `YamlScalar::DeepCopy` uses
the default copy constructor (copies `Tag`, `Source`, `Content`);
`YamlSequence::DeepCopy` and `YamlMapping::DeepCopy` construct a fresh node,
shallow-copy the base members (`Tag`, `Source`) via `base::operator=`, and
deep-copy the entries with nulls preserved.  Caveat: for a mapping this
embedding keeps the copied entries in the original iteration order, whereas
the C++ re-inserts freshly allocated pointer-hashed keys into a *new*
`std::unordered_map`, whose iteration order is not guaranteed to match the
original's (it depends on the new heap addresses).  Theorems about `deepCopy`
of mappings are therefore confined to properties independent of entry order,
such as preservation of the base members `Tag` and `Source`. -/
def deepCopy : YamlNode → YamlNode
  | .scalar t s c => .scalar t s c
  | .sequence t s entries => .sequence t s (deepCopyEntries entries)
  | .mapping t s entries => .mapping t s (deepCopyPairs entries)

/-- The entry loop of `YamlSequence::DeepCopy` (Yaml.h lines 139-142): a null
entry is pushed as null, any other entry is deep-copied. -/
def deepCopyEntries : List (Option YamlNode) → List (Option YamlNode)
  | [] => []
  | none :: rest => none :: deepCopyEntries rest
  | some n :: rest => some (deepCopy n) :: deepCopyEntries rest

/-- The entry loop of `YamlMapping::DeepCopy` (Yaml.h lines 198-207): the four
null/non-null combinations of key and value, deep-copying the non-null
sides.  The returned list keeps the original iteration order; the C++
destination `unordered_map` gives no such guarantee (see the caveat on
`deepCopy`), so only order-independent consequences are drawn from this
definition. -/
def deepCopyPairs : List (Option YamlNode × Option YamlNode) → List (Option YamlNode × Option YamlNode)
  | [] => []
  | (none, none) :: rest => (none, none) :: deepCopyPairs rest
  | (none, some v) :: rest => (none, some (deepCopy v)) :: deepCopyPairs rest
  | (some k, none) :: rest => (some (deepCopy k), none) :: deepCopyPairs rest
  | (some k, some v) :: rest => (some (deepCopy k), some (deepCopy v)) :: deepCopyPairs rest

end

mutual

/-- Modelled from the spec: deep structural equality of two YAML node trees
(the claim's comparison; no such function exists in Yaml.h).  Kinds must
agree; scalars compare their `Content`; sequences and mappings compare their
entries recursively with nulls only equal to nulls.  `Tag` and `Source` are
not part of the structure (the spec's duplicate-key error names two distinct
source locations for the two equal keys). -/
def structEq : YamlNode → YamlNode → Bool
  | .scalar _ _ c₁, .scalar _ _ c₂ => c₁ == c₂
  | .sequence _ _ e₁, .sequence _ _ e₂ => structEqEntries e₁ e₂
  | .mapping _ _ p₁, .mapping _ _ p₂ => structEqPairs p₁ p₂
  | _, _ => false

/-- Modelled from the spec: structural equality of sequence entry lists. -/
def structEqEntries : List (Option YamlNode) → List (Option YamlNode) → Bool
  | [], [] => true
  | none :: r₁, none :: r₂ => structEqEntries r₁ r₂
  | some a :: r₁, some b :: r₂ => structEq a b && structEqEntries r₁ r₂
  | _, _ => false

/-- Modelled from the spec: structural equality of mapping entry lists. -/
def structEqPairs :
    List (Option YamlNode × Option YamlNode) → List (Option YamlNode × Option YamlNode) → Bool
  | [], [] => true
  | (none, none) :: r₁, (none, none) :: r₂ => structEqPairs r₁ r₂
  | (none, some v₁) :: r₁, (none, some v₂) :: r₂ => structEq v₁ v₂ && structEqPairs r₁ r₂
  | (some k₁, none) :: r₁, (some k₂, none) :: r₂ => structEq k₁ k₂ && structEqPairs r₁ r₂
  | (some k₁, some v₁) :: r₁, (some k₂, some v₂) :: r₂ =>
      structEq k₁ k₂ && (structEq v₁ v₂ && structEqPairs r₁ r₂)
  | _, _ => false

end

/-- A heap-allocated YAML node as owned through a `unique_ptr`: the address of
the pointed-to object together with the node's value.  Distinct live
allocations have distinct addresses. -/
structure UNode where
  addr : Nat
  node : YamlNode

/-- Embedding of `Map.find(pFrom)` in `YamlMapping::Add` (Yaml.h line 190):
the C++ `unordered_map<unique_ptr<YamlNode>, unique_ptr<YamlNode>>` uses
`std::equal_to<unique_ptr>`, which compares the raw pointer values, so the
lookup scans for an entry whose key is the *same object* (same address). -/
def mapFindByPointer (entries : List (UNode × Option UNode)) (key : UNode) :
    Option (UNode × Option UNode) :=
  entries.find? (fun e => e.1.addr == key.addr)

/-- Embedding of `YamlMapping::Add` (Yaml.h lines 188-193): if `Map.find`
locates the inserted key, a `FormatException` naming both source locations is
thrown; otherwise the pair is inserted. -/
def mappingAdd (mappingSource : String) (entries : List (UNode × Option UNode))
    (key : UNode) (value : Option UNode) : Except String (List (UNode × Option UNode)) :=
  match mapFindByPointer entries key with
  | some existing =>
      .error ("Duplicate keys found at " ++ yamlSource key.node ++ " and "
        ++ yamlSource existing.1.node ++ " are not permitted in mapping at "
        ++ mappingSource ++ ".")
  | none => .ok (entries ++ [(key, value)])

end Yaml

namespace Xml

/-- The XML DOM of Xml.h, restricted to the node kinds a parsed tree contains:
an `XmlElement` (with `LocalName`, its attribute list of `(Name, Value)`
pairs, and children) or an `XmlText` (with raw `Text` content).  Every node
carries its `SourceLocation`. -/
inductive XNode where
  | element (localName : String) (attrs : List (String × String))
      (children : List XNode) (src : String)
  | text (content : String) (src : String)

/-- The `LocalName` of an element; the empty string for a text node. -/
def localNameOf : XNode → String
  | .element nm _ _ _ => nm
  | .text _ _ => ""

/-- Whether a node is an `XmlElement` (the `IsElement`/`GetType` test of
Xml.h). -/
def isElem : XNode → Bool
  | .element _ _ _ _ => true
  | .text _ _ => false

/-- Modelled from the spec: `XmlNode::Elements` (declared in Xml.h, lines
121-124; its implementation file is not among the provided sources): the
children that are `XmlElement`s, in document order. -/
def elementsOf (children : List XNode) : List XNode :=
  children.filter isElem

/-- Modelled from the spec: `XmlNode::FindNthChild` (declared in Xml.h, lines
131-134; its implementation file is not among the provided sources): scans the
direct children in order, counting those elements whose `LocalName` matches,
and returns the (N+1)-th match, or none when fewer than N+1 children match. -/
def findNthChild : List XNode → String → Nat → Option XNode
  | [], _, _ => none
  | XNode.element nm attrs kids src :: rest, tagName, n =>
      if nm = tagName then
        match n with
        | 0 => some (XNode.element nm attrs kids src)
        | m + 1 => findNthChild rest tagName m
      else findNthChild rest tagName n
  | XNode.text _ _ :: rest, tagName, n => findNthChild rest tagName n

/-- An `XmlDocument`: the root container, which (unlike strict XML) may hold
zero or more top-level children. -/
structure XDocument where
  roots : List XNode

end Xml

namespace Stream

/-- Modelled from the spec: the reader state of `StreamParser` (declared in
XmlParser.h, lines 62-127; the implementation file is not among the provided
sources).  `buffer` is the `Current` character followed by the loaded
lookahead characters (so `Loaded = buffer.length` and `Current` is valid iff
the buffer is non-empty); `source` is the not-yet-read remainder of the
underlying stream; `line` is `CurrentLineNumber`. -/
structure SPState where
  buffer : List Char
  source : List Char
  line : Nat
deriving Repr, DecidableEq

/-- Modelled from the spec: `StreamParser::Advance()` (XmlParser.h lines
90-97): consumes `Current` (incrementing the line count when it is a
linefeed), shifts the lookahead left by one, reloading a single character from
the stream when the buffer would become empty, and returns whether a new
`Current` is valid.  With nothing loaded there is nothing to shift and the
call fails. -/
def advance1 (s : SPState) : SPState × Bool :=
  match s.buffer with
  | [] => (s, false)
  | c :: rest =>
    let line' := if c = '\n' then s.line + 1 else s.line
    match rest, s.source with
    | [], [] => (⟨[], [], line'⟩, false)
    | [], d :: ds => (⟨[d], ds, line'⟩, true)
    | r :: rs, _ => (⟨r :: rs, s.source, line'⟩, true)

/-- N successive applications of `Advance()`; the returned flag is that of the
last application (`true` when N = 0, since advancing zero characters asks for
nothing). -/
def advanceIter : Nat → SPState → SPState × Bool
  | 0, s => (s, true)
  | n + 1, s =>
    let p := advance1 s
    match n with
    | 0 => p
    | m + 1 => advanceIter (m + 1) p.1

/-- The number of linefeed characters in a list (the line-count effect of
consuming those characters). -/
def countNL (cs : List Char) : Nat :=
  (cs.filter (fun c => c = '\n')).length

/-- Modelled from the spec: `StreamParser::Advance(int N)` (XmlParser.h lines
99-108) as a bulk operation: it moves the current-and-lookahead window forward
`N` characters in one step — dropping the consumed characters, counting their
linefeeds, refilling a single `Current` character when the buffer is
overrun — and reports whether advancing the requested number of characters was
possible. -/
def advanceN (s : SPState) (n : Nat) : SPState × Bool :=
  if n = 0 then (s, true)
  else
    match s.buffer with
    | [] => (s, false)
    | _ :: _ =>
      let all := s.buffer ++ s.source
      let consumed := min n all.length
      let line' := s.line + countNL (all.take consumed)
      if n < s.buffer.length then
        (⟨s.buffer.drop n, s.source, line'⟩, true)
      else
        let buffer' := (all.drop consumed).take 1
        (⟨buffer', all.drop (consumed + 1), line'⟩, !buffer'.isEmpty)

end Stream

namespace Parser

open Xml

/-- Modelled from the spec: the reader position used by the XML parser — the
not-yet-consumed characters of the stream and the current 1-based line
number. -/
structure Rd where
  input : List Char
  line : Nat
deriving Repr, DecidableEq

/-- Consumes one character, incrementing the line count on a linefeed. -/
def rdNext (r : Rd) : Rd :=
  match r.input with
  | [] => r
  | c :: rest => ⟨rest, if c = '\n' then r.line + 1 else r.line⟩

/-- Consumes `n` characters. -/
def rdDrop : Nat → Rd → Rd
  | 0, r => r
  | n + 1, r => rdDrop n (rdNext r)

/-- Modelled from the spec: `GetSource()` — with no source file tag (as in a
bare `PartialParse(stream)` call) the location reads `line <line>`. -/
def getSource (r : Rd) : String :=
  "line " ++ toString r.line

/-- Whether `pat` is an initial segment of the input. -/
def listStarts : List Char → List Char → Bool
  | [], _ => true
  | _ :: _, [] => false
  | p :: ps, c :: cs => p == c && listStarts ps cs

/-- Embedding of `XmlParser::IsWhitespace` (XmlParser.h line 136). -/
def isWS (c : Char) : Bool :=
  c = ' ' || c = '\t' || c = '\n' || c = '\r'

/-- Modelled from the spec: a name-start character (the dispatch rule
`<` followed by a name-start character opens a tag). -/
def isNameStart (c : Char) : Bool :=
  c.isAlpha || c = '_' || c = ':'

/-- Splits the reader at the longest prefix satisfying `p`. -/
def spanRd (p : Char → Bool) (r : Rd) : List Char × Rd :=
  let taken := r.input.takeWhile p
  (taken, rdDrop taken.length r)

/-- Skips whitespace characters. -/
def skipWS (r : Rd) : Rd :=
  (spanRd isWS r).2

/-- Strips leading and trailing whitespace from a character list (attribute
names are trimmed of surrounding whitespace). -/
def trimChars (cs : List Char) : List Char :=
  ((cs.dropWhile isWS).reverse.dropWhile isWS).reverse

/-- A hexadecimal digit. -/
def isHexDigitC (c : Char) : Bool :=
  c.isDigit || ('a' ≤ c && c ≤ 'f') || ('A' ≤ c && c ≤ 'F')

/-- Value of a hexadecimal digit. -/
def hexVal (c : Char) : Nat :=
  if c.isDigit then c.toNat - 48
  else if 'a' ≤ c && c ≤ 'f' then c.toNat - 87
  else if 'A' ≤ c && c ≤ 'F' then c.toNat - 55
  else 0

/-- Decimal value of a digit list. -/
def decodeDec (ds : List Char) : Nat :=
  ds.foldl (fun a c => a * 10 + (c.toNat - 48)) 0

/-- Hexadecimal value of a digit list. -/
def decodeHex (ds : List Char) : Nat :=
  ds.foldl (fun a c => a * 16 + hexVal c) 0

/-- Result of a token-level parsing step: success with a value and the rest of
the reader, suspension (the stream yielded no further data inside a
construct), or a format error. -/
inductive ERes (α : Type) where
  | ok (v : α) (r : Rd)
  | suspend
  | fail (msg : String)

/-- Modelled from the spec (§Escape): entity decoding at a `&`.  The five
predefined entities plus decimal `&#N;` and hexadecimal `&#xH;` character
references are recognized; any other `&…` sequence is the error
`unrecognized entity reference`.  (Stream pause in the middle of an entity is
not modelled beyond an exhausted input.) -/
def readEntity (r : Rd) : ERes (List Char) :=
  let after := rdNext r
  if listStarts "amp;".data after.input then .ok ['&'] (rdDrop 4 after)
  else if listStarts "lt;".data after.input then .ok ['<'] (rdDrop 3 after)
  else if listStarts "gt;".data after.input then .ok ['>'] (rdDrop 3 after)
  else if listStarts "apos;".data after.input then .ok [Char.ofNat 39] (rdDrop 5 after)
  else if listStarts "quot;".data after.input then .ok ['"'] (rdDrop 5 after)
  else
    match after.input with
    | '#' :: 'x' :: _ =>
      let (ds, r₁) := spanRd isHexDigitC (rdDrop 2 after)
      match ds, r₁.input with
      | [], _ => .fail ("unrecognized entity reference at " ++ getSource r)
      | _ :: _, ';' :: _ => .ok [Char.ofNat (decodeHex ds)] (rdNext r₁)
      | _ :: _, [] => .suspend
      | _ :: _, _ => .fail ("unrecognized entity reference at " ++ getSource r)
    | '#' :: _ =>
      let (ds, r₁) := spanRd Char.isDigit (rdNext after)
      match ds, r₁.input with
      | [], _ => .fail ("unrecognized entity reference at " ++ getSource r)
      | _ :: _, ';' :: _ => .ok [Char.ofNat (decodeDec ds)] (rdNext r₁)
      | _ :: _, [] => .suspend
      | _ :: _, _ => .fail ("unrecognized entity reference at " ++ getSource r)
    | [] => .suspend
    | _ => .fail ("unrecognized entity reference at " ++ getSource r)

/-- Modelled from the spec: the PCDATA state — accumulate characters (with
entity de-escaping) until the next `<`; the text is kept verbatim, including
leading and trailing whitespace. -/
def pcdataLoop : Nat → Rd → List Char → ERes String
  | 0, _, _ => .suspend
  | fuel + 1, r, accRev =>
    match r.input with
    | [] => .suspend
    | '<' :: _ => .ok (String.mk accRev.reverse) r
    | '&' :: _ =>
      match readEntity r with
      | .ok cs r' => pcdataLoop fuel r' (cs.reverse ++ accRev)
      | .suspend => .suspend
      | .fail m => .fail m
    | c :: _ => pcdataLoop fuel (rdNext r) (c :: accRev)

/-- Modelled from the spec: the CDATA state — contents through `]]>` are taken
raw (no entity decoding). -/
def cdataLoop : Nat → Rd → List Char → ERes String
  | 0, _, _ => .suspend
  | fuel + 1, r, accRev =>
    match r.input with
    | [] => .suspend
    | c :: _ =>
      if listStarts "]]>".data r.input then .ok (String.mk accRev.reverse) (rdDrop 3 r)
      else cdataLoop fuel (rdNext r) (c :: accRev)

/-- Modelled from the spec: attribute-value content up to the matching quote
character, with entity de-escaping applied. -/
def attrValueLoop : Nat → Char → Rd → List Char → ERes String
  | 0, _, _, _ => .suspend
  | fuel + 1, quoteChar, r, accRev =>
    match r.input with
    | [] => .suspend
    | '&' :: _ =>
      match readEntity r with
      | .ok cs r' => attrValueLoop fuel quoteChar r' (cs.reverse ++ accRev)
      | .suspend => .suspend
      | .fail m => .fail m
    | c :: _ =>
      if c = quoteChar then .ok (String.mk accRev.reverse) (rdNext r)
      else attrValueLoop fuel quoteChar (rdNext r) (c :: accRev)

/-- Modelled from the spec: discard characters through the first occurrence of
`pat` (comments through `-->`, XML declarations through `?>`). -/
def skipPastLoop : Nat → List Char → Rd → Option Rd
  | 0, _, _ => none
  | fuel + 1, pat, r =>
    match r.input with
    | [] => none
    | _ :: _ =>
      if listStarts pat r.input then some (rdDrop pat.length r)
      else skipPastLoop fuel pat (rdNext r)

/-- Modelled from the spec: the DOCTYPE state — a balanced scan tracking
`[...]` nesting that terminates at the matching `>`; content is discarded. -/
def doctypeLoop : Nat → Nat → Rd → Option Rd
  | 0, _, _ => none
  | fuel + 1, depth, r =>
    match r.input with
    | [] => none
    | '[' :: _ => doctypeLoop fuel (depth + 1) (rdNext r)
    | ']' :: _ => doctypeLoop fuel (depth - 1) (rdNext r)
    | '>' :: _ =>
      if depth = 0 then some (rdNext r) else doctypeLoop fuel depth (rdNext r)
    | _ :: _ => doctypeLoop fuel depth (rdNext r)

/-- An element currently open on the `NodeStack`: its name, the attributes
collected so far, its completed children in reverse order, and the source
location captured when its opening `<` began. -/
structure OpenElem where
  localName : String
  attrs : List (String × String)
  kidsRev : List XNode
  src : String

/-- The XML parser's machine state between steps: the reader, the `NodeStack`
of open elements (top first), and the completed top-level children of the
document in progress (in reverse order). -/
structure MState where
  rd : Rd
  stack : List OpenElem
  rootsRev : List XNode

/-- The result of one `PartialParse` call: a completed top-level document with
the successor state, no completed document (the stream yielded no further
data), or a format error. -/
inductive PPRes where
  | doc (d : XDocument) (after : MState)
  | nodoc (after : MState)
  | perr (msg : String)

/-- Result of scanning one opening tag's attribute section: the element closed
itself with `/>`, or it remains open after `>`. -/
inductive TagRes where
  | closedElem (e : OpenElem) (r : Rd)
  | openElem (e : OpenElem) (r : Rd)
  | suspend
  | fail (msg : String)

/-- Modelled from the spec: the attribute loop of an opening tag — skip
whitespace; `/>` closes the element, `>` leaves it open; otherwise an
attribute name is read up to `=` (trimmed, non-empty), then after optional
whitespace a `"`- or `'`-quoted value is read with entity de-escaping and the
pair is appended to the element's attributes. -/
def attrLoop : Nat → OpenElem → Rd → TagRes
  | 0, _, _ => .suspend
  | fuel + 1, e, r₀ =>
    let r := skipWS r₀
    match r.input with
    | [] => .suspend
    | '/' :: _ =>
      if listStarts "/>".data r.input then .closedElem e (rdDrop 2 r)
      else .fail ("malformed tag at " ++ getSource r)
    | '>' :: _ => .openElem e (rdNext r)
    | _ :: _ =>
      let (keyChars, r₁) := spanRd (fun c => c ≠ '=') r
      match r₁.input with
      | [] => .suspend
      | _ :: _ =>
        let key := String.mk (trimChars keyChars)
        if key = "" then .fail ("empty attribute name at " ++ getSource r)
        else
          let r₂ := skipWS (rdNext r₁)
          match r₂.input with
          | [] => .suspend
          | q :: _ =>
            if q = '"' || q = Char.ofNat 39 then
              match attrValueLoop fuel q (rdNext r₂) [] with
              | .ok v r₃ => attrLoop fuel { e with attrs := e.attrs ++ [(key, v)] } r₃
              | .suspend => .suspend
              | .fail m => .fail m
            else .fail ("expected quoted attribute value at " ++ getSource r₂)

/-- Closing a finished element: it becomes an `XNode.element`; when the stack
below it is empty the top-level parse completes and a document holding the
top-level children is produced (with a fresh state for continued parsing),
otherwise the node is attached as a child of the element below. -/
def closeTop (e : OpenElem) (stackRest : List OpenElem) (rootsRev : List XNode) (r : Rd) :
    Option XDocument × MState :=
  let node := XNode.element e.localName e.attrs e.kidsRev.reverse e.src
  match stackRest with
  | [] => (some ⟨(node :: rootsRev).reverse⟩, ⟨r, [], []⟩)
  | parent :: more => (none, ⟨r, { parent with kidsRev := node :: parent.kidsRev } :: more, rootsRev⟩)

/-- Attaches a text node to the element on top of the stack. -/
def attachText (s : MState) (txt src : String) (r : Rd) : MState :=
  match s.stack with
  | [] => { s with rd := r }
  | top :: rest => ⟨r, { top with kidsRev := XNode.text txt src :: top.kidsRev } :: rest, s.rootsRev⟩

/-- Modelled from the spec (§4.C): the XML parser state machine.  From `Idle`,
inter-node whitespace is discarded when no element is open; then the input is
dispatched on `<!--` (comment), `<![CDATA[`, `<!DOCTYPE`, `<?`, `</`, `<` plus
a name-start character, or other content (PCDATA inside an element,
`content outside root element` otherwise).  An opening tag reads its name and
attribute section; a closing tag must match the top of the `NodeStack`
(reporting both locations otherwise).  When the stack collapses to empty, the
completed top-level document is returned.  When the stream yields no further
data without completing one, no document is returned. -/
def runMachine : Nat → MState → PPRes
  | 0, s => .nodoc s
  | fuel + 1, s₀ =>
    let s := if s₀.stack.isEmpty then { s₀ with rd := skipWS s₀.rd } else s₀
    match s.rd.input with
    | [] => .nodoc s
    | '<' :: rest =>
      if listStarts "!--".data rest then
        match skipPastLoop fuel "-->".data (rdDrop 4 s.rd) with
        | some r' => runMachine fuel { s with rd := r' }
        | none => .nodoc s
      else if listStarts "![CDATA[".data rest then
        if s.stack.isEmpty then .perr ("content outside root element at " ++ getSource s.rd)
        else
          match cdataLoop fuel (rdDrop 9 s.rd) [] with
          | .ok txt r' => runMachine fuel (attachText s txt (getSource s.rd) r')
          | .suspend => .nodoc s
          | .fail m => .perr m
      else if listStarts "!DOCTYPE".data rest then
        match doctypeLoop fuel 0 (rdDrop 9 s.rd) with
        | some r' => runMachine fuel { s with rd := r' }
        | none => .nodoc s
      else if listStarts "?".data rest then
        match skipPastLoop fuel "?>".data (rdDrop 2 s.rd) with
        | some r' => runMachine fuel { s with rd := r' }
        | none => .nodoc s
      else if listStarts "/".data rest then
        let r₀ := rdDrop 2 s.rd
        let (nameChars, r₁) := spanRd (fun c => c ≠ '>') r₀
        match r₁.input with
        | [] => .nodoc s
        | _ :: _ =>
          let r₂ := rdNext r₁
          let nm := String.mk nameChars
          match s.stack with
          | [] => .perr ("closing tag </" ++ nm ++ "> without an open element at " ++ getSource s.rd)
          | top :: stackRest =>
            if nm ≠ top.localName then
              .perr ("expected </" ++ top.localName ++ "> (opened at " ++ top.src
                ++ ") but found </" ++ nm ++ "> at " ++ getSource s.rd)
            else
              match closeTop top stackRest s.rootsRev r₂ with
              | (some d, s') => .doc d s'
              | (none, s') => runMachine fuel s'
      else
        match rest with
        | c :: _ =>
          if isNameStart c then
            let src0 := getSource s.rd
            let (nameChars, r₁) :=
              spanRd (fun c => !(isWS c || c = '/' || c = '>')) (rdNext s.rd)
            match attrLoop fuel ⟨String.mk nameChars, [], [], src0⟩ r₁ with
            | .closedElem e r₂ =>
              match closeTop e s.stack s.rootsRev r₂ with
              | (some d, s') => .doc d s'
              | (none, s') => runMachine fuel s'
            | .openElem e r₂ => runMachine fuel ⟨r₂, e :: s.stack, s.rootsRev⟩
            | .suspend => .nodoc s
            | .fail m => .perr m
          else .perr ("malformed tag at " ++ getSource s.rd)
        | [] => .nodoc s
    | _ :: _ =>
      match s.stack with
      | [] => .perr ("content outside root element at " ++ getSource s.rd)
      | _ :: _ =>
        let src0 := getSource s.rd
        match pcdataLoop fuel s.rd [] with
        | .ok txt r' => runMachine fuel (attachText s txt src0 r')
        | .suspend => .nodoc s
        | .fail m => .perr m

/-- Modelled from the spec: `XmlParser::PartialParse` — run the state machine
until the stack collapses to empty (one top-level document completed) and
return that document, or return null if the stream yields no further data
without completing one.  The fuel bound exceeds the number of machine steps
possible on the remaining input (every step consumes at least one
character). -/
def partialParse (s : MState) : PPRes :=
  runMachine (s.rd.input.length + 1) s

/-- The parser state at the start of a stream (line numbering starts at 1,
empty node stack, no completed top-level children). -/
def initState (str : String) : MState :=
  ⟨⟨str.data, 1⟩, [], []⟩

/-- A further `PartialParse` call on the state left behind by a previous call
(errors propagate). -/
def ppNext : PPRes → PPRes
  | .doc _ s => partialParse s
  | .nodoc s => partialParse s
  | .perr m => .perr m

/-- Observable summary of a node: local name (or the text content marked with
`#text`), attribute list, and child count. -/
def xSummary : XNode → String × List (String × String) × Nat
  | .element nm attrs kids _ => (nm, attrs, kids.length)
  | .text t _ => ("#text " ++ t, [], 0)

/-- The summaries of a returned document's top-level children; `none` when the
call did not return a document. -/
def docSummary : PPRes → Option (List (String × List (String × String) × Nat))
  | .doc d _ => some (d.roots.map xSummary)
  | _ => none

/-- Whether the call returned null (no completed document, no error). -/
def isNullReturn : PPRes → Bool
  | .nodoc _ => true
  | _ => false

/-- First `PartialParse` call on the stream `<a/><b/>`. -/
def callOne : PPRes := partialParse (initState "<a/><b/>")

/-- Second `PartialParse` call on the stream `<a/><b/>`. -/
def callTwo : PPRes := ppNext callOne

/-- Third `PartialParse` call on the stream `<a/><b/>`. -/
def callThree : PPRes := ppNext callTwo

end Parser

/-! ## Theorems -/

namespace Yaml

mutual

/-- Deep-copying a node yields an equal node in the embedding, where nodes are
pure trees and mapping entries keep their iteration order (see the caveat on
`deepCopy`); the consequences drawn from this lemma below concern only
entry-order-independent properties. -/
theorem deepCopy_eq : ∀ n : YamlNode, deepCopy n = n
  | .scalar _ _ _ => rfl
  | .sequence t s entries => by rw [deepCopy, deepCopyEntries_eq]
  | .mapping t s entries => by rw [deepCopy, deepCopyPairs_eq]

/-- Deep-copying a sequence's entry list yields an equal list. -/
theorem deepCopyEntries_eq : ∀ es : List (Option YamlNode), deepCopyEntries es = es
  | [] => rfl
  | none :: rest => by rw [deepCopyEntries, deepCopyEntries_eq]
  | some n :: rest => by rw [deepCopyEntries, deepCopy_eq, deepCopyEntries_eq]

/-- Deep-copying a mapping's entry list yields an equal list. -/
theorem deepCopyPairs_eq : ∀ ps : List (Option YamlNode × Option YamlNode), deepCopyPairs ps = ps
  | [] => rfl
  | (none, none) :: rest => by rw [deepCopyPairs, deepCopyPairs_eq]
  | (none, some v) :: rest => by rw [deepCopyPairs, deepCopy_eq, deepCopyPairs_eq]
  | (some k, none) :: rest => by rw [deepCopyPairs, deepCopy_eq, deepCopyPairs_eq]
  | (some k, some v) :: rest => by
      rw [deepCopyPairs, deepCopy_eq, deepCopy_eq, deepCopyPairs_eq]

end

/-- The sequence writer's loop, once `First` is cleared, renders every entry
preceded by the separator. -/
theorem seqEntriesJson_false_eq (o : JsonWriterOptions) :
    ∀ es : List (Option YamlNode),
      seqEntriesJson es false o = contJoin (es.map (seqItemJson o))
  | [] => rfl
  | none :: rest => by
      rw [seqEntriesJson, seqEntriesJson_false_eq o rest]
      simp only [contJoin, seqItemJson]
      simp [← String.append_assoc]
  | some n :: rest => by
      rw [seqEntriesJson, seqEntriesJson_false_eq o rest]
      simp only [contJoin, seqItemJson]
      simp [← String.append_assoc]

/-- The sequence writer's loop renders the entries joined by the `,\n`
separator. -/
theorem seqEntriesJson_true_eq (o : JsonWriterOptions) (es : List (Option YamlNode)) :
    seqEntriesJson es true o = joinComma (es.map (seqItemJson o)) := by
  cases es with
  | nil => rfl
  | cons e rest =>
    cases e <;>
      · simp only [seqEntriesJson, joinComma, seqItemJson, List.map_cons,
          seqEntriesJson_false_eq]
        simp [← String.append_assoc]

/-- The mapping writer's loop, once `First` is cleared, renders every entry
preceded by the separator. -/
theorem mapEntriesJson_false_eq (o : JsonWriterOptions) :
    ∀ ps : List (Option YamlNode × Option YamlNode),
      mapEntriesJson ps false o = contJoin (ps.map (mapItemJson o))
  | [] => rfl
  | (none, none) :: rest => by
      rw [mapEntriesJson, mapEntriesJson_false_eq o rest]
      simp only [contJoin, mapItemJson]
      simp [← String.append_assoc]
  | (none, some v) :: rest => by
      rw [mapEntriesJson, mapEntriesJson_false_eq o rest]
      simp only [contJoin, mapItemJson]
      simp [← String.append_assoc]
  | (some k, none) :: rest => by
      rw [mapEntriesJson, mapEntriesJson_false_eq o rest]
      simp only [contJoin, mapItemJson]
      simp [← String.append_assoc]
  | (some k, some v) :: rest => by
      rw [mapEntriesJson, mapEntriesJson_false_eq o rest]
      simp only [contJoin, mapItemJson]
      simp [← String.append_assoc]

/-- The mapping writer's loop renders the entries joined by the `,\n`
separator. -/
theorem mapEntriesJson_true_eq (o : JsonWriterOptions)
    (ps : List (Option YamlNode × Option YamlNode)) :
    mapEntriesJson ps true o = joinComma (ps.map (mapItemJson o)) := by
  cases ps with
  | nil => rfl
  | cons kv rest =>
    obtain ⟨k, v⟩ := kv
    cases k <;> cases v <;>
      · simp only [mapEntriesJson, joinComma, mapItemJson, List.map_cons,
          mapEntriesJson_false_eq]
        simp [← String.append_assoc]

/-- Normal form of the sequence writer: bracketed, comma-joined items, each at
one deeper indentation. -/
theorem toJson_sequence_eq (t s : String) (es : List (Option YamlNode))
    (o : JsonWriterOptions) :
    toJson (.sequence t s es) o
      = "[\n" ++ joinComma (es.map (seqItemJson { o with Indentation := o.Indentation + 1 }))
        ++ "\n" ++ addIndent o.Indentation ++ "]" := by
  rw [toJson, seqEntriesJson_true_eq]

/-- Normal form of the mapping writer: brace-enclosed, comma-joined entries,
each at one deeper indentation. -/
theorem toJson_mapping_eq (t s : String) (ps : List (Option YamlNode × Option YamlNode))
    (o : JsonWriterOptions) :
    toJson (.mapping t s ps) o
      = "\x7b\n" ++ joinComma (ps.map (mapItemJson { o with Indentation := o.Indentation + 1 }))
        ++ "\n" ++ addIndent o.Indentation ++ "\x7d" := by
  rw [toJson, mapEntriesJson_true_eq]

/-- Two characters are equal iff their code points are. -/
theorem char_eq_iff_toNat (c d : Char) : (c = d) ↔ (c.toNat = d.toNat) :=
  Iff.intro (fun h => h ▸ rfl) (fun h => Char.ext (UInt32.ext h))

/-- Character order is code-point order. -/
theorem char_le_iff_toNat (c d : Char) : (c ≤ d) ↔ (c.toNat ≤ d.toNat) :=
  Iff.rfl

/-- `toupper(c) == 'E'` holds exactly for `E` and `e`. -/
theorem ctoupper_eq_69 (n : Nat) : (ctoupper n = 69) ↔ (n = 69 ∨ n = 101) := by
  unfold ctoupper; split <;> omega

/-- `toupper(c) == '.'` holds exactly for `.` (no letter uppercases to a
dot). -/
theorem ctoupper_eq_46 (n : Nat) : (ctoupper n = 46) ↔ (n = 46) := by
  unfold ctoupper; split <;> omega

/-- The loop test of `YamlScalar::ToJsonValue` accepts exactly the character
class `[-+0-9.eE]` of the specification's regex. -/
theorem numericChar_eq (c : Char) : isNumericCharCode c = specNumericChar c := by
  rw [Bool.eq_iff_iff]
  simp only [isNumericCharCode, specNumericChar, Bool.or_eq_true, Bool.and_eq_true,
    decide_eq_true_eq, beq_iff_eq, char_eq_iff_toNat, char_le_iff_toNat]
  rw [ctoupper_eq_69, ctoupper_eq_46]
  rw [show ('0' : Char).toNat = 48 from rfl, show ('9' : Char).toNat = 57 from rfl,
    show ('-' : Char).toNat = 45 from rfl, show ('+' : Char).toNat = 43 from rfl,
    show ('.' : Char).toNat = 46 from rfl, show ('e' : Char).toNat = 101 from rfl,
    show ('E' : Char).toNat = 69 from rfl]
  omega

/-- C1: `YamlMapping::Add` does not reject a structurally duplicate key.  The
C++ `unordered_map` is keyed on `unique_ptr<YamlNode>` and its default
equality compares the raw pointer values, so `Map.find(pFrom)` never locates a
freshly allocated key and the duplicate-key `FormatException` is unreachable:
inserting a key that is deep-structurally equal to an existing key (but a
distinct allocation) succeeds, contradicting the claimed duplicate
rejection. -/
theorem claim_C1_add_ignores_structural_duplicate :
    structEq (YamlNode.scalar "?" "file.yaml:1" "x") (YamlNode.scalar "?" "file.yaml:9" "x") = true
    ∧ mappingAdd "file.yaml:1" [(⟨0, .scalar "?" "file.yaml:1" "x"⟩, none)]
        ⟨1, .scalar "?" "file.yaml:9" "x"⟩ none
      = .ok [(⟨0, .scalar "?" "file.yaml:1" "x"⟩, none),
             (⟨1, .scalar "?" "file.yaml:9" "x"⟩, none)] :=
  ⟨rfl, rfl⟩

/-- C2 (counterexample): on the empty content with `UnquoteNumbers` set, the
code emits the unquoted empty string, while the claim's regex
`^[-+0-9.eE]+$` (one or more characters) does not match, so the claimed
behaviour is the quoted empty string — the two differ. -/
theorem claim_C2_counterexample :
    toJsonValue "" true = ""
    ∧ toJsonValueClaimed "" true = "\"" ++ jsonEscape "" ++ "\""
    ∧ toJsonValue "" true ≠ toJsonValueClaimed "" true := by
  refine ⟨rfl, rfl, ?_⟩
  decide

/-- C2 (amended): `ToJsonValue` emits the content verbatim exactly when
`UnquoteNumbers` is set and every character of the content lies in the class
`[-+0-9.eE]` — i.e. the content matches `^[-+0-9.eE]*$`, which the empty
content satisfies vacuously — and the quoted escaped JSON string otherwise. -/
theorem claim_C2_amended_numeric_unquoting (content : String) (u : Bool) :
    toJsonValue content u = toJsonValueAmended content u := by
  have hall : content.data.all isNumericCharCode = content.data.all specNumericChar := by
    induction content.data with
    | nil => rfl
    | cons c rest ih => simp [List.all_cons, numericChar_eq, ih]
  cases u with
  | false => rfl
  | true =>
    simp only [toJsonValue, toJsonValueAmended, hall, Bool.not_true, Bool.true_and]
    rfl

/-- C4: `YamlMapping::ToJson` renders the mapping as a JSON object — the
`key: value` pairs, comma-joined at one deeper indentation, enclosed in `{`
and `}` — and an entry with a null key is rendered with the quoted empty
string `""` in key position. -/
theorem claim_C4_mapping_renders_json_object (t s : String)
    (ps : List (Option YamlNode × Option YamlNode)) (o : JsonWriterOptions) :
    toJson (.mapping t s ps) o
      = "\x7b\n" ++ joinComma (ps.map (mapItemJson { o with Indentation := o.Indentation + 1 }))
        ++ "\n" ++ addIndent o.Indentation ++ "\x7d"
    ∧ ∀ v : Option YamlNode,
        mapItemJson { o with Indentation := o.Indentation + 1 } (none, v)
          = addIndent (o.Indentation + 1) ++ "\"\"" ++ ": "
            ++ (match v with
                | none => "null"
                | some vn => toJson vn { o with Indentation := o.Indentation + 1 }) := by
  refine ⟨toJson_mapping_eq t s ps o, ?_⟩
  intro v
  cases v <;> simp [mapItemJson]

/-- C8: with `UnquoteNumbers` set, a scalar with empty `Content` is emitted by
`ToJson` as the empty string without quotes (the entirely-numeric loop passes
vacuously), not as the quoted empty string. -/
theorem claim_C8_empty_scalar_unquoted (t s : String) (i : Int) :
    toJson (.scalar t s "") ⟨i, true⟩ = ""
    ∧ toJson (.scalar t s "") ⟨i, true⟩ ≠ "\"" ++ jsonEscape "" ++ "\"" := by
  refine ⟨rfl, ?_⟩
  rw [show toJson (.scalar t s "") ⟨i, true⟩ = "" from rfl]
  decide

/-- C9: a null entry of a sequence is serialized as the unquoted literal
`null`; a null value of a mapping entry (with non-null key) is serialized as
the unquoted literal `null` after the key; only a null mapping key is rendered
as `""`. -/
theorem claim_C9_null_entries_serialize_as_null (t s : String) (o : JsonWriterOptions)
    (es₁ es₂ : List (Option YamlNode)) (ps₁ ps₂ : List (Option YamlNode × Option YamlNode))
    (k v : YamlNode) :
    toJson (.sequence t s (es₁ ++ none :: es₂)) o
      = "[\n" ++ joinComma
          (es₁.map (seqItemJson { o with Indentation := o.Indentation + 1 })
            ++ (addIndent (o.Indentation + 1) ++ "null")
              :: es₂.map (seqItemJson { o with Indentation := o.Indentation + 1 }))
        ++ "\n" ++ addIndent o.Indentation ++ "]"
    ∧ toJson (.mapping t s (ps₁ ++ (some k, none) :: ps₂)) o
      = "\x7b\n" ++ joinComma
          (ps₁.map (mapItemJson { o with Indentation := o.Indentation + 1 })
            ++ (addIndent (o.Indentation + 1)
                  ++ toJson k { o with Indentation := o.Indentation + 1 } ++ ": " ++ "null")
              :: ps₂.map (mapItemJson { o with Indentation := o.Indentation + 1 }))
        ++ "\n" ++ addIndent o.Indentation ++ "\x7d"
    ∧ toJson (.mapping t s (ps₁ ++ (none, some v) :: ps₂)) o
      = "\x7b\n" ++ joinComma
          (ps₁.map (mapItemJson { o with Indentation := o.Indentation + 1 })
            ++ (addIndent (o.Indentation + 1)
                  ++ "\"\"" ++ ": " ++ toJson v { o with Indentation := o.Indentation + 1 })
              :: ps₂.map (mapItemJson { o with Indentation := o.Indentation + 1 }))
        ++ "\n" ++ addIndent o.Indentation ++ "\x7d" := by
  refine ⟨?_, ?_, ?_⟩
  · rw [toJson_sequence_eq]
    simp only [List.map_append, List.map_cons, seqItemJson]
  · rw [toJson_mapping_eq]
    simp only [List.map_append, List.map_cons, mapItemJson]
  · rw [toJson_mapping_eq]
    simp only [List.map_append, List.map_cons, mapItemJson]

/-- C10: `DeepCopy` preserves the `Tag` and `Source` strings of the copied
node, for every scalar, sequence and mapping. -/
theorem claim_C10_deepCopy_preserves_tag_and_source (n : YamlNode) :
    yamlTag (deepCopy n) = yamlTag n ∧ yamlSource (deepCopy n) = yamlSource n := by
  rw [deepCopy_eq]
  exact ⟨rfl, rfl⟩

end Yaml

namespace Xml

/-- C6: for every node's child list, every name and every `k ≥ 0`,
`FindNthChild(name, k)` returns exactly the `(k+1)`-th element of `Elements()`
filtered by that name, in document order — and none when fewer than `k+1` such
children exist (the indexed lookup is then out of range). -/
theorem claim_C6_findNthChild_matches_filtered_elements
    (cs : List XNode) (tagName : String) (k : Nat) :
    findNthChild cs tagName k
      = ((elementsOf cs).filter (fun e => localNameOf e == tagName))[k]? := by
  induction cs generalizing k with
  | nil => simp [findNthChild, elementsOf]
  | cons c rest ih =>
    cases c with
    | element nm attrs kids src =>
      by_cases h : nm = tagName
      · subst h
        cases k with
        | zero =>
          simp [findNthChild, elementsOf, isElem, localNameOf, List.filter_cons]
        | succ m =>
          simp [findNthChild, elementsOf, isElem, localNameOf, List.filter_cons, ih]
      · simp [findNthChild, elementsOf, isElem, localNameOf, List.filter_cons, h, ih]
    | text t src =>
      simp [findNthChild, elementsOf, isElem, List.filter_cons, ih]

end Xml

namespace Stream

/-- Consuming a character adds its linefeed count. -/
theorem countNL_cons (c : Char) (cs : List Char) :
    countNL (c :: cs) = (if c = '\n' then 1 else 0) + countNL cs := by
  simp only [countNL, List.filter_cons]
  split <;> simp_all <;> omega

/-- Advancing by one is a single `Advance()`. -/
theorem advanceN_one (s : SPState) : advanceN s 1 = advance1 s := by
  obtain ⟨buf, src, line⟩ := s
  cases buf with
  | nil => rfl
  | cons c rest =>
    cases rest with
    | cons r rs =>
      simp only [advanceN, advance1, OfNat.ofNat_ne_zero, if_false]
      simp [List.length_cons, countNL_cons, countNL]
      split <;> simp_all [List.filter_cons]
    | nil =>
      cases src with
      | nil =>
        simp only [advanceN, advance1]
        simp [countNL_cons, countNL]
        split <;> simp_all [List.filter_cons]
      | cons d ds =>
        simp only [advanceN, advance1]
        simp [countNL_cons, countNL]
        split <;> simp_all [List.filter_cons]

/-- Peeling one `Advance()` off a bulk advance of `n + 1` characters. -/
theorem advanceN_succ (s : SPState) (n : Nat) (hn : 1 ≤ n) :
    advanceN s (n + 1) = advanceN (advance1 s).1 n := by
  obtain ⟨buf, src, line⟩ := s
  cases buf with
  | nil =>
    simp only [advance1, advanceN]
    rw [if_neg (show ¬ n + 1 = 0 by omega), if_neg (show ¬ n = 0 by omega)]
  | cons c rest =>
    cases rest with
    | nil =>
      cases src with
      | nil =>
        simp only [advance1, advanceN]
        rw [if_neg (show ¬ n + 1 = 0 by omega), if_neg (show ¬ n = 0 by omega)]
        simp only [List.cons_append, List.nil_append, List.length_cons, List.length_nil]
        rw [if_neg (show ¬ n + 1 < 0 + 1 by omega)]
        simp only [Nat.succ_min_succ, List.take_succ_cons, List.drop_succ_cons, countNL_cons]
        by_cases hc : c = '\n' <;> simp [hc, countNL]
      | cons d ds =>
        simp only [advance1, advanceN]
        rw [if_neg (show ¬ n + 1 = 0 by omega), if_neg (show ¬ n = 0 by omega)]
        simp only [List.cons_append, List.nil_append, List.length_cons, List.length_nil]
        rw [if_neg (show ¬ n + 1 < 0 + 1 by omega), if_neg (show ¬ n < 0 + 1 by omega)]
        simp only [Nat.succ_min_succ, List.take_succ_cons, List.drop_succ_cons, countNL_cons]
        by_cases hc : c = '\n' <;> simp [hc] <;> omega
    | cons r rs =>
      simp only [advance1, advanceN]
      rw [if_neg (show ¬ n + 1 = 0 by omega), if_neg (show ¬ n = 0 by omega)]
      simp only [List.cons_append, List.length_cons, List.length_append]
      by_cases hlt : n < rs.length + 1
      · rw [if_pos (show n + 1 < rs.length + 1 + 1 by omega), if_pos hlt]
        simp only [Nat.succ_min_succ, List.take_succ_cons, List.drop_succ_cons, countNL_cons]
        by_cases hc : c = '\n' <;> simp [hc] <;> omega
      · rw [if_neg (show ¬ n + 1 < rs.length + 1 + 1 by omega), if_neg hlt]
        simp only [Nat.succ_min_succ, List.take_succ_cons, List.drop_succ_cons, countNL_cons]
        by_cases hc : c = '\n' <;> simp [hc] <;> omega

/-- C7: for every reader state and every `N`, the bulk `Advance(N)` is
equivalent to `N` successive applications of `Advance()` — the same resulting
state (current character and lookahead buffer, loaded count, remaining stream,
line number) and the same return value. -/
theorem claim_C7_advanceN_eq_iterated_advance (s : SPState) (n : Nat) :
    advanceN s n = advanceIter n s := by
  induction n generalizing s with
  | zero => rfl
  | succ m ih =>
    cases m with
    | zero => rw [advanceN_one]; rfl
    | succ k =>
      rw [advanceN_succ s (k + 1) (by omega), ih]
      rfl

end Stream

namespace Parser

/-- C5: `PartialParse` returns exactly one completed top-level document per
call — on the stream `<a/><b/>`, the first call returns a document containing
the single element `a` (no attributes, no children), the second call returns a
document containing the single element `b`, and the third call returns null
(no further data, no completed document, no error). -/
theorem claim_C5_partialParse_one_document_per_call :
    docSummary callOne = some [("a", [], 0)]
    ∧ docSummary callTwo = some [("b", [], 0)]
    ∧ isNullReturn callThree = true :=
  ⟨rfl, rfl, rfl⟩

end Parser

end CppLib
